import Mathlib

/-!
Verification development for the gas-sponsorship paymaster of the
greenledger-ui repository.  The repository ships only the ABI of the
contract (src/contracts/GreenLedgerPaymaster.json) together with browser
glue code; the behaviour of every entry point is therefore modelled from
the natural-language specification (sections 3, 4, 6 and 7 of spec.md),
staying faithful to its words.  Addresses, selectors and amounts are
modelled as natural numbers used purely as lookup keys and quantities;
allowlists are association lists read through a default-deny lookup.
-/

namespace GreenLedger

/-- Modelled from the spec: the error taxonomy of section 7 (Unauthorized,
PolicyDenied, InsufficientFunds, StakeTimelockNotElapsed, InvalidContext),
extended with the stake-management failures that section 4.3 describes but
section 7 leaves unnamed (delay shortening, unlock misuse, empty stake). -/
inductive PMError
  | Unauthorized
  | PolicyDenied
  | InsufficientFunds
  | StakeTimelockNotElapsed
  | InvalidContext
  | InvalidStakeDelay
  | NoStakeToUnlock
  | UnlockAlreadyPending
  | NoStakeToWithdraw
  deriving DecidableEq, Repr

/-- Modelled from the spec: the events of section 6 emitted for audit. -/
inductive Event
  | SenderStatusUpdated (sender : Nat) (allowed : Bool)
  | OperationStatusUpdated (operation : Nat) (allowed : Bool)
  | UserOperationSponsored (sender operation actualGasCost : Nat)
  deriving DecidableEq, Repr

/-- Modelled from the spec: the administrative action kinds that the
AccessControl oracle of section 4.1 is queried about, one per mutating
entry point. -/
inductive AdminAct
  | setSenderStatusAct
  | setOperationStatusAct
  | setBatchSenderStatusAct
  | setBatchOperationStatusAct
  | addStakeAct
  | unlockStakeAct
  | withdrawStakeAct
  | withdrawToAct
  deriving DecidableEq, Repr

/-- Modelled from the spec: the settlement modes of section 4.4 (operation
succeeded, operation reverted but executed, and the postOp-itself-reverted
mode), mirroring the enum PostOpMode of the ABI. -/
inductive PostOpMode
  | opSucceeded
  | opReverted
  | postOpReverted
  deriving DecidableEq, Repr

/-- Modelled from the spec: the stake record of section 4.3 - an amount,
the configured unlock delay, and the unlock time once `unlockStake` has
started the timer (`none` while the timer was never started). -/
structure StakeInfo where
  amount : Nat
  unlockDelay : Nat
  unlockTime : Option Nat
  deriving DecidableEq, Repr

/-- Modelled from the spec: the persisted state layout of section 6 -
the two default-deny allowlists, the deposit balance, the stake record,
plus the two references fixed by the constructor (entryPoint and
accessControl, exposed read-only by the ABI). -/
structure PMState where
  entryPoint : Nat
  accessControl : Nat
  allowedSenders : List (Nat × Bool)
  allowedOperations : List (Nat × Bool)
  balance : Nat
  stake : StakeInfo
  deriving DecidableEq, Repr

/-- Modelled from the spec: the caller-supplied PackedUserOperation of
section 3 (field list from the ABI tuple); only `sender` and `callData`
are inspected by the core. -/
structure UserOperation where
  sender : Nat
  nonce : Nat
  initCode : List Nat
  callData : List Nat
  accountGasLimits : Nat
  preVerificationGas : Nat
  gasFees : Nat
  paymasterAndData : List Nat
  signature : List Nat
  deriving DecidableEq, Repr

/-- Modelled from the spec: the sponsorship context of section 3,
embedding sender, operation selector and the maximum cost authorized. -/
structure Context where
  sender : Nat
  selector : Nat
  maxCost : Nat
  deriving DecidableEq, Repr

/-- Byte of a byte list at index i, zero when out of range (bytes4
conversion pads with zeros). -/
def byteAt (l : List Nat) (i : Nat) : Nat := (l.getD i 0) % 256

/-- Modelled from the spec: the operation selector is the leading 4-byte
identifier of the callData (section 4.4 step 2), assembled big-endian. -/
def selectorOf (callData : List Nat) : Nat :=
  byteAt callData 0 * 2 ^ 24 + byteAt callData 1 * 2 ^ 16 +
    byteAt callData 2 * 2 ^ 8 + byteAt callData 3

/-- Modelled from the spec: serialize a context into the opaque byte blob
handed to the settlement authority (section 4.4 step 5). -/
def encodeCtx (c : Context) : List Nat := [c.sender, c.selector, c.maxCost]

/-- Modelled from the spec: decode the opaque context blob; any blob not
produced by `encodeCtx` fails to decode (section 7: InvalidContext). -/
def decodeCtx : List Nat → Option Context
  | [s, sel, m] => some ⟨s, sel, m⟩
  | _ => none

/-- Association-list write with mapping semantics: overwrite the binding
of `k` when present, append it otherwise (entries are created implicitly
on first set, never deleted - spec section 3). -/
def setEntry (m : List (Nat × Bool)) (k : Nat) (v : Bool) : List (Nat × Bool) :=
  if m.any (fun p => p.1 == k) then
    m.map (fun p => match p.1 == k with | true => (k, v) | false => p)
  else m ++ [(k, v)]

/-- Default-deny lookup: absence of a key is equivalent to allowed = false
(spec section 3, AllowlistEntry invariant). -/
def lookupDefault (m : List (Nat × Bool)) (k : Nat) : Bool :=
  (m.lookup k).getD false

/-- Modelled from the spec: `isSenderAllowed`, default-deny (section 4.2). -/
def isSenderAllowed (st : PMState) (s : Nat) : Bool :=
  lookupDefault st.allowedSenders s

/-- Modelled from the spec: `isOperationAllowed`, default-deny (section 4.2). -/
def isOperationAllowed (st : PMState) (o : Nat) : Bool :=
  lookupDefault st.allowedOperations o

/-- The AccessControl oracle of section 4.1, injected as a capability:
`oracle principal action` answers whether the principal may perform the
administrative action. -/
def Oracle : Type := Nat → AdminAct → Bool

/-- Modelled from the spec: `deposit` (section 4.3) - unauthenticated,
increases the balance by the attached value, always succeeds. -/
def deposit (amount : Nat) (st : PMState) : PMState :=
  { st with balance := st.balance + amount }

/-- Modelled from the spec: `withdrawTo` (section 4.3) - authorized-only,
deducts the amount from the balance; fails if the amount exceeds the
balance. -/
def withdrawTo (oracle : Oracle) (caller dest amount : Nat) (st : PMState) :
    Except PMError PMState :=
  if oracle caller .withdrawToAct then
    if amount ≤ st.balance then
      .ok { st with balance := st.balance - amount }
    else .error .InsufficientFunds
  else .error .Unauthorized

/-- Modelled from the spec: `addStake` (section 4.3) - authorized-only,
increases the stake by the attached value and sets the unlock delay;
fails if the requested delay is below the currently configured delay
(monotonic non-decrease). -/
def addStake (oracle : Oracle) (caller value unstakeDelaySec : Nat)
    (st : PMState) : Except PMError PMState :=
  if oracle caller .addStakeAct then
    if unstakeDelaySec < st.stake.unlockDelay then
      .error .InvalidStakeDelay
    else
      .ok { st with stake :=
        ⟨st.stake.amount + value, unstakeDelaySec, st.stake.unlockTime⟩ }
  else .error .Unauthorized

/-- Modelled from the spec: `unlockStake` (section 4.3) - authorized-only,
starts the unlock timer at now plus the configured delay; fails if no
stake is present or an unlock is already pending. -/
def unlockStake (oracle : Oracle) (caller now : Nat) (st : PMState) :
    Except PMError PMState :=
  if oracle caller .unlockStakeAct then
    if st.stake.amount = 0 then .error .NoStakeToUnlock
    else
      match st.stake.unlockTime with
      | some _ => .error .UnlockAlreadyPending
      | none =>
          .ok { st with stake :=
            ⟨st.stake.amount, st.stake.unlockDelay,
              some (now + st.stake.unlockDelay)⟩ }
  else .error .Unauthorized

/-- Modelled from the spec: `withdrawStake` (section 4.3) - authorized-only,
transfers the full stake once the unlock timer has elapsed; fails if the
timer was never started, has not yet elapsed, or the stake is zero.  The
returned number is the amount transferred. -/
def withdrawStake (oracle : Oracle) (caller dest now : Nat) (st : PMState) :
    Except PMError (Nat × PMState) :=
  if oracle caller .withdrawStakeAct then
    match st.stake.unlockTime with
    | none => .error .StakeTimelockNotElapsed
    | some t =>
        if now < t then .error .StakeTimelockNotElapsed
        else if st.stake.amount = 0 then .error .NoStakeToWithdraw
        else
          .ok (st.stake.amount,
            { st with stake := ⟨0, st.stake.unlockDelay, st.stake.unlockTime⟩ })
  else .error .Unauthorized

/-- Modelled from the spec: `setSenderStatus` (section 4.2) - authorized
single-entry write, emitting SenderStatusUpdated. -/
def setSenderStatus (oracle : Oracle) (caller s : Nat) (allowed : Bool)
    (st : PMState) : Except PMError (List Event × PMState) :=
  if oracle caller .setSenderStatusAct then
    .ok ([.SenderStatusUpdated s allowed],
      { st with allowedSenders := setEntry st.allowedSenders s allowed })
  else .error .Unauthorized

/-- Modelled from the spec: `setOperationStatus` (section 4.2) - authorized
single-entry write, emitting OperationStatusUpdated. -/
def setOperationStatus (oracle : Oracle) (caller o : Nat) (allowed : Bool)
    (st : PMState) : Except PMError (List Event × PMState) :=
  if oracle caller .setOperationStatusAct then
    .ok ([.OperationStatusUpdated o allowed],
      { st with allowedOperations := setEntry st.allowedOperations o allowed })
  else .error .Unauthorized

/-- Modelled from the spec: `setBatchSenderStatus` (section 4.2) - the
authorization check precedes every write, so an unauthorized call rejects
the whole batch before any entry is written. -/
def setBatchSenderStatus (oracle : Oracle) (caller : Nat)
    (senders : List Nat) (allowed : Bool) (st : PMState) :
    Except PMError (List Event × PMState) :=
  if oracle caller .setBatchSenderStatusAct then
    .ok (senders.map (fun s => .SenderStatusUpdated s allowed),
      { st with allowedSenders :=
        senders.foldl (fun m s => setEntry m s allowed) st.allowedSenders })
  else .error .Unauthorized

/-- Modelled from the spec: `setBatchOperationStatus` (section 4.2),
symmetric to the sender batch. -/
def setBatchOperationStatus (oracle : Oracle) (caller : Nat)
    (operations : List Nat) (allowed : Bool) (st : PMState) :
    Except PMError (List Event × PMState) :=
  if oracle caller .setBatchOperationStatusAct then
    .ok (operations.map (fun o => .OperationStatusUpdated o allowed),
      { st with allowedOperations :=
        operations.foldl (fun m o => setEntry m o allowed) st.allowedOperations })
  else .error .Unauthorized

/-- Modelled from the spec: `validatePaymasterUserOp` (section 4.4).  The
sender and the leading selector of the callData are extracted; the call
is denied with PolicyDenied unless both allowlists admit them, denied
with InsufficientFunds if the declared maximum cost exceeds the balance,
and otherwise approved, returning the encoded context together with
validationData 0 (approved, no time-range restriction).  The state is
returned untouched: validation is a read-only admission decision (the
ABI marks the entry point view). -/
def validatePaymasterUserOp (uo : UserOperation) (maxCost : Nat)
    (st : PMState) : Except PMError ((List Nat × Nat) × PMState) :=
  if isSenderAllowed st uo.sender && isOperationAllowed st (selectorOf uo.callData) then
    if maxCost ≤ st.balance then
      .ok ((encodeCtx ⟨uo.sender, selectorOf uo.callData, maxCost⟩, 0), st)
    else .error .InsufficientFunds
  else .error .PolicyDenied

/-- Modelled from the spec: `postOp` / settle (section 4.4).  The context
is decoded (an undecodable blob fails with InvalidContext); the actual
gas cost is deducted from the balance regardless of the mode, emitting
UserOperationSponsored; if the cost exceeds the balance the call fails
with InsufficientFunds, fatal to the enclosing execution.  Per sections 3
and 9 the system keeps no record of issued or consumed contexts - the
settlement authority alone is relied upon for the one-to-one pairing of
validations and settlements. -/
def postOp (mode : PostOpMode) (context : List Nat) (actualGasCost : Nat)
    (st : PMState) : Except PMError (List Event × PMState) :=
  match decodeCtx context with
  | none => .error .InvalidContext
  | some c =>
      if actualGasCost ≤ st.balance then
        .ok ([.UserOperationSponsored c.sender c.selector actualGasCost],
          { st with balance := st.balance - actualGasCost })
      else .error .InsufficientFunds

/-- Resulting state of a call with revert semantics: a failing call leaves
the state exactly as it was (spec section 7: no partial effect). -/
def stepState {α : Type} (st : PMState) : Except PMError (α × PMState) → PMState
  | .ok (_, st') => st'
  | .error _ => st

/-- Resulting state of a call returning only a state, revert semantics. -/
def stepStateP (st : PMState) : Except PMError PMState → PMState
  | .ok st' => st'
  | .error _ => st

/-- One external call of the full ABI surface, with its caller and, for
the time-gated stake calls, the current clock value. -/
inductive Call
  | depositC (amount : Nat)
  | withdrawToC (caller dest amount : Nat)
  | addStakeC (caller value delay : Nat)
  | unlockStakeC (caller now : Nat)
  | withdrawStakeC (caller dest now : Nat)
  | setSenderStatusC (caller s : Nat) (allowed : Bool)
  | setOperationStatusC (caller o : Nat) (allowed : Bool)
  | setBatchSenderStatusC (caller : Nat) (senders : List Nat) (allowed : Bool)
  | setBatchOperationStatusC (caller : Nat) (operations : List Nat) (allowed : Bool)
  | validateC (uo : UserOperation) (maxCost : Nat)
  | postOpC (mode : PostOpMode) (context : List Nat) (actualGasCost : Nat)
  deriving DecidableEq, Repr

/-- Execute one call against the state, applying revert semantics. -/
def execCall (oracle : Oracle) (c : Call) (st : PMState) : PMState :=
  match c with
  | .depositC a => deposit a st
  | .withdrawToC caller dest a => stepStateP st (withdrawTo oracle caller dest a st)
  | .addStakeC caller v d => stepStateP st (addStake oracle caller v d st)
  | .unlockStakeC caller now => stepStateP st (unlockStake oracle caller now st)
  | .withdrawStakeC caller dest now => stepState st (withdrawStake oracle caller dest now st)
  | .setSenderStatusC caller s b => stepState st (setSenderStatus oracle caller s b st)
  | .setOperationStatusC caller o b => stepState st (setOperationStatus oracle caller o b st)
  | .setBatchSenderStatusC caller l b => stepState st (setBatchSenderStatus oracle caller l b st)
  | .setBatchOperationStatusC caller l b => stepState st (setBatchOperationStatus oracle caller l b st)
  | .validateC uo m => stepState st (validatePaymasterUserOp uo m st)
  | .postOpC mode ctx g => stepState st (postOp mode ctx g st)

/-- Run a sequence of calls from a state. -/
def runCalls (oracle : Oracle) : List Call → PMState → PMState
  | [], st => st
  | c :: cs, st => runCalls oracle cs (execCall oracle c st)

/-- Accounting contribution of one call against a state: the amount it
successfully deposits, the gas cost it successfully settles, and the
amount it successfully withdraws (a failing call contributes nothing). -/
def contribOf (oracle : Oracle) (c : Call) (st : PMState) : Nat × Nat × Nat :=
  match c with
  | .depositC a => (a, 0, 0)
  | .postOpC mode ctx g =>
      match postOp mode ctx g st with
      | .ok _ => (0, g, 0)
      | .error _ => (0, 0, 0)
  | .withdrawToC caller dest a =>
      match withdrawTo oracle caller dest a st with
      | .ok _ => (0, 0, a)
      | .error _ => (0, 0, 0)
  | _ => (0, 0, 0)

/-- Run a sequence of calls while accumulating the sums of successfully
deposited amounts, successfully settled gas costs, and successfully
withdrawn amounts (failed calls contribute nothing). -/
def runAcc (oracle : Oracle) : List Call → PMState → PMState × Nat × Nat × Nat
  | [], st => (st, 0, 0, 0)
  | c :: cs, st =>
      ((runAcc oracle cs (execCall oracle c st)).1,
       (contribOf oracle c st).1 + (runAcc oracle cs (execCall oracle c st)).2.1,
       (contribOf oracle c st).2.1 + (runAcc oracle cs (execCall oracle c st)).2.2.1,
       (contribOf oracle c st).2.2 + (runAcc oracle cs (execCall oracle c st)).2.2.2)

/-- Modelled from the spec: the construction-time state - the two
references fixed by the constructor, empty allowlists, zero balance and
zero stake. -/
def initState (ep ac : Nat) : PMState :=
  ⟨ep, ac, [], [], 0, ⟨0, 0, none⟩⟩

/-- Does the call write the allowlist entry of sender s? -/
def touchesSender (c : Call) (s : Nat) : Bool :=
  match c with
  | .setSenderStatusC _ s' _ => s' == s
  | .setBatchSenderStatusC _ senders _ => senders.contains s
  | _ => false

/-- Does the call write the allowlist entry of operation o? -/
def touchesOperation (c : Call) (o : Nat) : Bool :=
  match c with
  | .setOperationStatusC _ o' _ => o' == o
  | .setBatchOperationStatusC _ operations _ => operations.contains o
  | _ => false


/-- Concrete allowlisted state used by concrete witnesses: sender 1 and
operation selector 7 are allowlisted and the balance is 200. -/
def sampleState : PMState :=
  ⟨7, 9, [(1, true)], [(7, true)], 200, ⟨0, 0, none⟩⟩

/-- Concrete user operation from sender 1 whose callData selects
operation 7. -/
def sampleOp : UserOperation :=
  ⟨1, 0, [], [0, 0, 0, 7], 0, 0, 0, [], []⟩

/-- Concrete state with a stake of 50, an unlock delay of 10 and the
unlock timer started, elapsing at time 110. -/
def sampleStakeState : PMState :=
  ⟨7, 9, [], [], 0, ⟨50, 10, some 110⟩⟩

/-- An oracle granting every administrative action. -/
def allowAll : Oracle := fun _ _ => true

/-- An oracle denying every administrative action. -/
def denyAll : Oracle := fun _ _ => false

/-- A concrete ledger trace: deposit 100, settle 80 against a decodable
context, withdraw 10. -/
def demoCalls : List Call :=
  [Call.depositC 100, Call.postOpC .opSucceeded [1, 7, 80] 80, Call.withdrawToC 0 4 10]

theorem lookup_map_overwrite (k k' : Nat) (v : Bool) (h : (k' == k) = false) :
    ∀ m : List (Nat × Bool),
      (m.map (fun p => match p.1 == k with | true => (k, v) | false => p)).lookup k'
        = m.lookup k' := by
  intro m
  induction m with
  | nil => rfl
  | cons p ps ih =>
    cases hp : p.1 == k with
    | true =>
      have hp1 : p.1 = k := eq_of_beq hp
      simp only [List.map_cons, hp, List.lookup, h, hp1, beq_self_eq_true, ih]
    | false =>
      simp only [List.map_cons, hp, List.lookup, ih]

theorem lookup_append_single (k k' : Nat) (v : Bool) (h : (k' == k) = false) :
    ∀ m : List (Nat × Bool), (m ++ [(k, v)]).lookup k' = m.lookup k' := by
  intro m
  induction m with
  | nil => simp [List.lookup, h]
  | cons p ps ih =>
    cases hp : k' == p.1 with
    | true => simp only [List.cons_append, List.lookup, hp, ih]
    | false => simp only [List.cons_append, List.lookup, hp, List.append_eq, ih]

theorem lookupDefault_setEntry_ne (k k' : Nat) (v : Bool) (h : (k' == k) = false)
    (m : List (Nat × Bool)) : lookupDefault (setEntry m k v) k' = lookupDefault m k' := by
  unfold setEntry lookupDefault
  split
  · rw [lookup_map_overwrite k k' v h]
  · rw [lookup_append_single k k' v h]

theorem lookupDefault_foldl_setEntry (v : Bool) (s : Nat) :
    ∀ (l : List Nat) (m : List (Nat × Bool)), l.contains s = false →
      lookupDefault (l.foldl (fun acc k => setEntry acc k v) m) s = lookupDefault m s := by
  intro l
  induction l with
  | nil => intro m _; rfl
  | cons k l ih =>
    intro m hc
    simp only [List.contains, List.elem_cons] at hc
    cases hk : s == k with
    | true => rw [hk] at hc; simp at hc
    | false =>
      rw [hk] at hc
      simp only [Bool.false_or] at hc
      simp only [List.foldl]
      rw [ih _ hc, lookupDefault_setEntry_ne k s v hk]


theorem withdrawTo_ok_iff {oracle : Oracle} {caller dest a : Nat} {st st' : PMState} :
    withdrawTo oracle caller dest a st = .ok st' ↔
      oracle caller .withdrawToAct = true ∧ a ≤ st.balance ∧
        st' = { st with balance := st.balance - a } := by
  unfold withdrawTo
  split
  next hauth =>
    split
    next hle => simp [hauth, hle, eq_comm]
    next hle => simp [hauth, hle]
  next hauth => simp [hauth]

theorem addStake_ok_iff {oracle : Oracle} {caller value d : Nat} {st st' : PMState} :
    addStake oracle caller value d st = .ok st' ↔
      oracle caller .addStakeAct = true ∧ st.stake.unlockDelay ≤ d ∧
        st' = { st with stake := ⟨st.stake.amount + value, d, st.stake.unlockTime⟩ } := by
  unfold addStake
  split
  next hauth =>
    split
    next hlt => simp [hauth, hlt, Nat.not_le_of_lt hlt]
    next hlt => simp [hauth, Nat.le_of_not_lt hlt, eq_comm]
  next hauth => simp [hauth]

theorem unlockStake_ok_iff {oracle : Oracle} {caller now : Nat} {st st' : PMState} :
    unlockStake oracle caller now st = .ok st' ↔
      oracle caller .unlockStakeAct = true ∧ st.stake.amount ≠ 0 ∧
        st.stake.unlockTime = none ∧
        st' = { st with stake :=
          ⟨st.stake.amount, st.stake.unlockDelay, some (now + st.stake.unlockDelay)⟩ } := by
  unfold unlockStake
  split
  next hauth =>
    split
    next hz => simp [hauth, hz]
    next hz =>
      cases ht : st.stake.unlockTime with
      | some t => simp [hauth, hz, ht]
      | none => simp [hauth, hz, ht, eq_comm]
  next hauth => simp [hauth]

theorem withdrawStake_ok_iff {oracle : Oracle} {caller dest now : Nat} {st : PMState}
    {x : Nat} {st' : PMState} :
    withdrawStake oracle caller dest now st = .ok (x, st') ↔
      oracle caller .withdrawStakeAct = true ∧
        (∃ t, st.stake.unlockTime = some t ∧ t ≤ now) ∧ st.stake.amount ≠ 0 ∧
        x = st.stake.amount ∧
        st' = { st with stake := ⟨0, st.stake.unlockDelay, st.stake.unlockTime⟩ } := by
  unfold withdrawStake
  split
  next hauth =>
    cases ht : st.stake.unlockTime with
    | none => simp [hauth, ht]
    | some t =>
      dsimp only
      split
      next hlt => simp [hauth, ht, Nat.not_le_of_lt hlt]
      next hlt =>
        split
        next hz => simp [hauth, ht, hz]
        next hz => simp [hauth, ht, Nat.le_of_not_lt hlt, hz, eq_comm, and_comm]
  next hauth => simp [hauth]

theorem setSenderStatus_ok_iff {oracle : Oracle} {caller s : Nat} {b : Bool}
    {st : PMState} {ev : List Event} {st' : PMState} :
    setSenderStatus oracle caller s b st = .ok (ev, st') ↔
      oracle caller .setSenderStatusAct = true ∧ ev = [.SenderStatusUpdated s b] ∧
        st' = { st with allowedSenders := setEntry st.allowedSenders s b } := by
  unfold setSenderStatus
  split
  next hauth => simp [hauth, eq_comm]
  next hauth => simp [hauth]

theorem setOperationStatus_ok_iff {oracle : Oracle} {caller o : Nat} {b : Bool}
    {st : PMState} {ev : List Event} {st' : PMState} :
    setOperationStatus oracle caller o b st = .ok (ev, st') ↔
      oracle caller .setOperationStatusAct = true ∧ ev = [.OperationStatusUpdated o b] ∧
        st' = { st with allowedOperations := setEntry st.allowedOperations o b } := by
  unfold setOperationStatus
  split
  next hauth => simp [hauth, eq_comm]
  next hauth => simp [hauth]

theorem setBatchSenderStatus_ok_iff {oracle : Oracle} {caller : Nat} {l : List Nat}
    {b : Bool} {st : PMState} {ev : List Event} {st' : PMState} :
    setBatchSenderStatus oracle caller l b st = .ok (ev, st') ↔
      oracle caller .setBatchSenderStatusAct = true ∧
        ev = l.map (fun s => .SenderStatusUpdated s b) ∧
        st' = { st with allowedSenders := l.foldl (fun m s => setEntry m s b) st.allowedSenders } := by
  unfold setBatchSenderStatus
  split
  next hauth => simp [hauth, eq_comm]
  next hauth => simp [hauth]

theorem setBatchOperationStatus_ok_iff {oracle : Oracle} {caller : Nat} {l : List Nat}
    {b : Bool} {st : PMState} {ev : List Event} {st' : PMState} :
    setBatchOperationStatus oracle caller l b st = .ok (ev, st') ↔
      oracle caller .setBatchOperationStatusAct = true ∧
        ev = l.map (fun o => .OperationStatusUpdated o b) ∧
        st' = { st with allowedOperations := l.foldl (fun m o => setEntry m o b) st.allowedOperations } := by
  unfold setBatchOperationStatus
  split
  next hauth => simp [hauth, eq_comm]
  next hauth => simp [hauth]

theorem validate_ok_iff {uo : UserOperation} {maxCost : Nat} {st : PMState}
    {r : List Nat × Nat} {st' : PMState} :
    validatePaymasterUserOp uo maxCost st = .ok (r, st') ↔
      isSenderAllowed st uo.sender = true ∧
        isOperationAllowed st (selectorOf uo.callData) = true ∧ maxCost ≤ st.balance ∧
        r = (encodeCtx ⟨uo.sender, selectorOf uo.callData, maxCost⟩, 0) ∧ st' = st := by
  unfold validatePaymasterUserOp
  split
  next hpol =>
    rw [Bool.and_eq_true] at hpol
    split
    next hle => simp [hpol.1, hpol.2, hle, eq_comm]
    next hle => simp [hpol.1, hpol.2, hle]
  next hpol =>
    constructor
    · intro h; simp at h
    · rintro ⟨h1, h2, -, -, -⟩
      exact absurd (Bool.and_eq_true _ _ |>.mpr ⟨h1, h2⟩) hpol

theorem postOp_ok_iff {mode : PostOpMode} {ctx : List Nat} {g : Nat} {st : PMState}
    {ev : List Event} {st' : PMState} :
    postOp mode ctx g st = .ok (ev, st') ↔
      ∃ c, decodeCtx ctx = some c ∧ g ≤ st.balance ∧
        ev = [.UserOperationSponsored c.sender c.selector g] ∧
        st' = { st with balance := st.balance - g } := by
  unfold postOp
  cases hd : decodeCtx ctx with
  | none => simp
  | some c =>
    dsimp only
    split
    next hle => simp [hle, eq_comm]
    next hle => simp [hle]



theorem withdrawTo_ok_balance {oracle : Oracle} {caller dest a : Nat} {st st' : PMState}
    (h : withdrawTo oracle caller dest a st = .ok st') :
    st'.balance + a = st.balance := by
  obtain ⟨-, hle, rfl⟩ := withdrawTo_ok_iff.mp h
  simp only
  omega

theorem postOp_ok_balance {mode : PostOpMode} {ctx : List Nat} {g : Nat} {st : PMState}
    {ev : List Event} {st' : PMState} (h : postOp mode ctx g st = .ok (ev, st')) :
    st'.balance + g = st.balance := by
  obtain ⟨c, -, hle, -, rfl⟩ := postOp_ok_iff.mp h
  simp only
  omega

theorem execCall_refs (oracle : Oracle) (c : Call) (st : PMState) :
    (execCall oracle c st).entryPoint = st.entryPoint ∧
    (execCall oracle c st).accessControl = st.accessControl := by
  cases c with
  | depositC a => simp [execCall, deposit]
  | withdrawToC caller dest a =>
    cases h : withdrawTo oracle caller dest a st with
    | error e => simp [execCall, h, stepStateP]
    | ok st' =>
      obtain ⟨-, -, rfl⟩ := withdrawTo_ok_iff.mp h
      simp [execCall, h, stepStateP]
  | addStakeC caller v d =>
    cases h : addStake oracle caller v d st with
    | error e => simp [execCall, h, stepStateP]
    | ok st' =>
      obtain ⟨-, -, rfl⟩ := addStake_ok_iff.mp h
      simp [execCall, h, stepStateP]
  | unlockStakeC caller now =>
    cases h : unlockStake oracle caller now st with
    | error e => simp [execCall, h, stepStateP]
    | ok st' =>
      obtain ⟨-, -, -, rfl⟩ := unlockStake_ok_iff.mp h
      simp [execCall, h, stepStateP]
  | withdrawStakeC caller dest now =>
    cases h : withdrawStake oracle caller dest now st with
    | error e => simp [execCall, h, stepState]
    | ok p =>
      obtain ⟨x, st'⟩ := p
      obtain ⟨-, -, -, -, rfl⟩ := withdrawStake_ok_iff.mp h
      simp [execCall, h, stepState]
  | setSenderStatusC caller s b =>
    cases h : setSenderStatus oracle caller s b st with
    | error e => simp [execCall, h, stepState]
    | ok p =>
      obtain ⟨ev, st'⟩ := p
      obtain ⟨-, -, rfl⟩ := setSenderStatus_ok_iff.mp h
      simp [execCall, h, stepState]
  | setOperationStatusC caller o b =>
    cases h : setOperationStatus oracle caller o b st with
    | error e => simp [execCall, h, stepState]
    | ok p =>
      obtain ⟨ev, st'⟩ := p
      obtain ⟨-, -, rfl⟩ := setOperationStatus_ok_iff.mp h
      simp [execCall, h, stepState]
  | setBatchSenderStatusC caller l b =>
    cases h : setBatchSenderStatus oracle caller l b st with
    | error e => simp [execCall, h, stepState]
    | ok p =>
      obtain ⟨ev, st'⟩ := p
      obtain ⟨-, -, rfl⟩ := setBatchSenderStatus_ok_iff.mp h
      simp [execCall, h, stepState]
  | setBatchOperationStatusC caller l b =>
    cases h : setBatchOperationStatus oracle caller l b st with
    | error e => simp [execCall, h, stepState]
    | ok p =>
      obtain ⟨ev, st'⟩ := p
      obtain ⟨-, -, rfl⟩ := setBatchOperationStatus_ok_iff.mp h
      simp [execCall, h, stepState]
  | validateC uo m =>
    cases h : validatePaymasterUserOp uo m st with
    | error e => simp [execCall, h, stepState]
    | ok p =>
      obtain ⟨r, st'⟩ := p
      obtain ⟨-, -, -, -, rfl⟩ := validate_ok_iff.mp h
      simp [execCall, h, stepState]
  | postOpC mode ctx g =>
    cases h : postOp mode ctx g st with
    | error e => simp [execCall, h, stepState]
    | ok p =>
      obtain ⟨ev, st'⟩ := p
      obtain ⟨c, -, -, -, rfl⟩ := postOp_ok_iff.mp h
      simp [execCall, h, stepState]



theorem execCall_sender_frame (oracle : Oracle) (c : Call) (st : PMState) (s : Nat)
    (h : touchesSender c s = false) :
    isSenderAllowed (execCall oracle c st) s = isSenderAllowed st s := by
  cases c with
  | depositC a => simp [execCall, deposit, isSenderAllowed]
  | withdrawToC caller dest a =>
    cases hc : withdrawTo oracle caller dest a st with
    | error e => simp [execCall, hc, stepStateP]
    | ok st' =>
      obtain ⟨-, -, rfl⟩ := withdrawTo_ok_iff.mp hc
      simp [execCall, hc, stepStateP, isSenderAllowed]
  | addStakeC caller v d =>
    cases hc : addStake oracle caller v d st with
    | error e => simp [execCall, hc, stepStateP]
    | ok st' =>
      obtain ⟨-, -, rfl⟩ := addStake_ok_iff.mp hc
      simp [execCall, hc, stepStateP, isSenderAllowed]
  | unlockStakeC caller now =>
    cases hc : unlockStake oracle caller now st with
    | error e => simp [execCall, hc, stepStateP]
    | ok st' =>
      obtain ⟨-, -, -, rfl⟩ := unlockStake_ok_iff.mp hc
      simp [execCall, hc, stepStateP, isSenderAllowed]
  | withdrawStakeC caller dest now =>
    cases hc : withdrawStake oracle caller dest now st with
    | error e => simp [execCall, hc, stepState]
    | ok p =>
      obtain ⟨x, st'⟩ := p
      obtain ⟨-, -, -, -, rfl⟩ := withdrawStake_ok_iff.mp hc
      simp [execCall, hc, stepState, isSenderAllowed]
  | setSenderStatusC caller s' b =>
    simp only [touchesSender] at h
    have hne : (s == s') = false :=
      beq_eq_false_iff_ne.mpr (Ne.symm (beq_eq_false_iff_ne.mp h))
    cases hc : setSenderStatus oracle caller s' b st with
    | error e => simp [execCall, hc, stepState]
    | ok p =>
      obtain ⟨ev, st'⟩ := p
      obtain ⟨-, -, rfl⟩ := setSenderStatus_ok_iff.mp hc
      simp only [execCall, hc, stepState, isSenderAllowed]
      exact lookupDefault_setEntry_ne s' s b hne st.allowedSenders
  | setOperationStatusC caller o b =>
    cases hc : setOperationStatus oracle caller o b st with
    | error e => simp [execCall, hc, stepState]
    | ok p =>
      obtain ⟨ev, st'⟩ := p
      obtain ⟨-, -, rfl⟩ := setOperationStatus_ok_iff.mp hc
      simp [execCall, hc, stepState, isSenderAllowed]
  | setBatchSenderStatusC caller l b =>
    simp only [touchesSender] at h
    cases hc : setBatchSenderStatus oracle caller l b st with
    | error e => simp [execCall, hc, stepState]
    | ok p =>
      obtain ⟨ev, st'⟩ := p
      obtain ⟨-, -, rfl⟩ := setBatchSenderStatus_ok_iff.mp hc
      simp only [execCall, hc, stepState, isSenderAllowed]
      exact lookupDefault_foldl_setEntry b s l st.allowedSenders h
  | setBatchOperationStatusC caller l b =>
    cases hc : setBatchOperationStatus oracle caller l b st with
    | error e => simp [execCall, hc, stepState]
    | ok p =>
      obtain ⟨ev, st'⟩ := p
      obtain ⟨-, -, rfl⟩ := setBatchOperationStatus_ok_iff.mp hc
      simp [execCall, hc, stepState, isSenderAllowed]
  | validateC uo m =>
    cases hc : validatePaymasterUserOp uo m st with
    | error e => simp [execCall, hc, stepState]
    | ok p =>
      obtain ⟨r, st'⟩ := p
      obtain ⟨-, -, -, -, rfl⟩ := validate_ok_iff.mp hc
      simp [execCall, hc, stepState]
  | postOpC mode ctx g =>
    cases hc : postOp mode ctx g st with
    | error e => simp [execCall, hc, stepState]
    | ok p =>
      obtain ⟨ev, st'⟩ := p
      obtain ⟨c, -, -, -, rfl⟩ := postOp_ok_iff.mp hc
      simp [execCall, hc, stepState, isSenderAllowed]



theorem execCall_operation_frame (oracle : Oracle) (c : Call) (st : PMState) (o : Nat)
    (h : touchesOperation c o = false) :
    isOperationAllowed (execCall oracle c st) o = isOperationAllowed st o := by
  cases c with
  | depositC a => simp [execCall, deposit, isOperationAllowed]
  | withdrawToC caller dest a =>
    cases hc : withdrawTo oracle caller dest a st with
    | error e => simp [execCall, hc, stepStateP]
    | ok st' =>
      obtain ⟨-, -, rfl⟩ := withdrawTo_ok_iff.mp hc
      simp [execCall, hc, stepStateP, isOperationAllowed]
  | addStakeC caller v d =>
    cases hc : addStake oracle caller v d st with
    | error e => simp [execCall, hc, stepStateP]
    | ok st' =>
      obtain ⟨-, -, rfl⟩ := addStake_ok_iff.mp hc
      simp [execCall, hc, stepStateP, isOperationAllowed]
  | unlockStakeC caller now =>
    cases hc : unlockStake oracle caller now st with
    | error e => simp [execCall, hc, stepStateP]
    | ok st' =>
      obtain ⟨-, -, -, rfl⟩ := unlockStake_ok_iff.mp hc
      simp [execCall, hc, stepStateP, isOperationAllowed]
  | withdrawStakeC caller dest now =>
    cases hc : withdrawStake oracle caller dest now st with
    | error e => simp [execCall, hc, stepState]
    | ok p =>
      obtain ⟨x, st'⟩ := p
      obtain ⟨-, -, -, -, rfl⟩ := withdrawStake_ok_iff.mp hc
      simp [execCall, hc, stepState, isOperationAllowed]
  | setSenderStatusC caller s b =>
    cases hc : setSenderStatus oracle caller s b st with
    | error e => simp [execCall, hc, stepState]
    | ok p =>
      obtain ⟨ev, st'⟩ := p
      obtain ⟨-, -, rfl⟩ := setSenderStatus_ok_iff.mp hc
      simp [execCall, hc, stepState, isOperationAllowed]
  | setOperationStatusC caller o' b =>
    simp only [touchesOperation] at h
    have hne : (o == o') = false :=
      beq_eq_false_iff_ne.mpr (Ne.symm (beq_eq_false_iff_ne.mp h))
    cases hc : setOperationStatus oracle caller o' b st with
    | error e => simp [execCall, hc, stepState]
    | ok p =>
      obtain ⟨ev, st'⟩ := p
      obtain ⟨-, -, rfl⟩ := setOperationStatus_ok_iff.mp hc
      simp only [execCall, hc, stepState, isOperationAllowed]
      exact lookupDefault_setEntry_ne o' o b hne st.allowedOperations
  | setBatchSenderStatusC caller l b =>
    cases hc : setBatchSenderStatus oracle caller l b st with
    | error e => simp [execCall, hc, stepState]
    | ok p =>
      obtain ⟨ev, st'⟩ := p
      obtain ⟨-, -, rfl⟩ := setBatchSenderStatus_ok_iff.mp hc
      simp [execCall, hc, stepState, isOperationAllowed]
  | setBatchOperationStatusC caller l b =>
    simp only [touchesOperation] at h
    cases hc : setBatchOperationStatus oracle caller l b st with
    | error e => simp [execCall, hc, stepState]
    | ok p =>
      obtain ⟨ev, st'⟩ := p
      obtain ⟨-, -, rfl⟩ := setBatchOperationStatus_ok_iff.mp hc
      simp only [execCall, hc, stepState, isOperationAllowed]
      exact lookupDefault_foldl_setEntry b o l st.allowedOperations h
  | validateC uo m =>
    cases hc : validatePaymasterUserOp uo m st with
    | error e => simp [execCall, hc, stepState]
    | ok p =>
      obtain ⟨r, st'⟩ := p
      obtain ⟨-, -, -, -, rfl⟩ := validate_ok_iff.mp hc
      simp [execCall, hc, stepState]
  | postOpC mode ctx g =>
    cases hc : postOp mode ctx g st with
    | error e => simp [execCall, hc, stepState]
    | ok p =>
      obtain ⟨ev, st'⟩ := p
      obtain ⟨c, -, -, -, rfl⟩ := postOp_ok_iff.mp hc
      simp [execCall, hc, stepState, isOperationAllowed]

theorem contrib_balance (oracle : Oracle) (c : Call) (st : PMState) :
    (execCall oracle c st).balance + (contribOf oracle c st).2.1 + (contribOf oracle c st).2.2
      = st.balance + (contribOf oracle c st).1 := by
  cases c with
  | depositC a => simp [execCall, deposit, contribOf]
  | withdrawToC caller dest a =>
    cases hc : withdrawTo oracle caller dest a st with
    | error e => simp [execCall, contribOf, hc, stepStateP]
    | ok st' =>
      have hb := withdrawTo_ok_balance hc
      simp only [execCall, contribOf, hc, stepStateP]
      omega
  | postOpC mode ctx g =>
    cases hc : postOp mode ctx g st with
    | error e => simp [execCall, contribOf, hc, stepState]
    | ok p =>
      obtain ⟨ev, st'⟩ := p
      have hb := postOp_ok_balance hc
      simp only [execCall, contribOf, hc, stepState]
      omega
  | addStakeC caller v d =>
    cases hc : addStake oracle caller v d st with
    | error e => simp [execCall, contribOf, hc, stepStateP]
    | ok st' =>
      obtain ⟨-, -, rfl⟩ := addStake_ok_iff.mp hc
      simp [execCall, contribOf, hc, stepStateP]
  | unlockStakeC caller now =>
    cases hc : unlockStake oracle caller now st with
    | error e => simp [execCall, contribOf, hc, stepStateP]
    | ok st' =>
      obtain ⟨-, -, -, rfl⟩ := unlockStake_ok_iff.mp hc
      simp [execCall, contribOf, hc, stepStateP]
  | withdrawStakeC caller dest now =>
    cases hc : withdrawStake oracle caller dest now st with
    | error e => simp [execCall, contribOf, hc, stepState]
    | ok p =>
      obtain ⟨x, st'⟩ := p
      obtain ⟨-, -, -, -, rfl⟩ := withdrawStake_ok_iff.mp hc
      simp [execCall, contribOf, hc, stepState]
  | setSenderStatusC caller s b =>
    cases hc : setSenderStatus oracle caller s b st with
    | error e => simp [execCall, contribOf, hc, stepState]
    | ok p =>
      obtain ⟨ev, st'⟩ := p
      obtain ⟨-, -, rfl⟩ := setSenderStatus_ok_iff.mp hc
      simp [execCall, contribOf, hc, stepState]
  | setOperationStatusC caller o b =>
    cases hc : setOperationStatus oracle caller o b st with
    | error e => simp [execCall, contribOf, hc, stepState]
    | ok p =>
      obtain ⟨ev, st'⟩ := p
      obtain ⟨-, -, rfl⟩ := setOperationStatus_ok_iff.mp hc
      simp [execCall, contribOf, hc, stepState]
  | setBatchSenderStatusC caller l b =>
    cases hc : setBatchSenderStatus oracle caller l b st with
    | error e => simp [execCall, contribOf, hc, stepState]
    | ok p =>
      obtain ⟨ev, st'⟩ := p
      obtain ⟨-, -, rfl⟩ := setBatchSenderStatus_ok_iff.mp hc
      simp [execCall, contribOf, hc, stepState]
  | setBatchOperationStatusC caller l b =>
    cases hc : setBatchOperationStatus oracle caller l b st with
    | error e => simp [execCall, contribOf, hc, stepState]
    | ok p =>
      obtain ⟨ev, st'⟩ := p
      obtain ⟨-, -, rfl⟩ := setBatchOperationStatus_ok_iff.mp hc
      simp [execCall, contribOf, hc, stepState]
  | validateC uo m =>
    cases hc : validatePaymasterUserOp uo m st with
    | error e => simp [execCall, contribOf, hc, stepState]
    | ok p =>
      obtain ⟨r, st'⟩ := p
      obtain ⟨-, -, -, -, rfl⟩ := validate_ok_iff.mp hc
      simp [execCall, contribOf, hc, stepState]

theorem runAcc_balance (oracle : Oracle) (cs : List Call) : ∀ st : PMState,
    ((runAcc oracle cs st).1).balance + (runAcc oracle cs st).2.2.1 +
        (runAcc oracle cs st).2.2.2
      = st.balance + (runAcc oracle cs st).2.1 := by
  induction cs with
  | nil => intro st; simp [runAcc]
  | cons c cs ih =>
    intro st
    have h1 := contrib_balance oracle c st
    have h2 := ih (execCall oracle c st)
    simp only [runAcc]
    omega

theorem runCalls_refs (oracle : Oracle) (cs : List Call) : ∀ st : PMState,
    (runCalls oracle cs st).entryPoint = st.entryPoint ∧
    (runCalls oracle cs st).accessControl = st.accessControl := by
  induction cs with
  | nil => intro st; exact ⟨rfl, rfl⟩
  | cons c cs ih =>
    intro st
    have h1 := execCall_refs oracle c st
    have h2 := ih (execCall oracle c st)
    simp only [runCalls]
    exact ⟨h2.1.trans h1.1, h2.2.trans h1.2⟩

theorem runCalls_sender_frame (oracle : Oracle) (cs : List Call) (s : Nat) :
    ∀ st : PMState, (∀ c ∈ cs, touchesSender c s = false) →
      isSenderAllowed (runCalls oracle cs st) s = isSenderAllowed st s := by
  induction cs with
  | nil => intro st _; rfl
  | cons c cs ih =>
    intro st h
    have h1 := execCall_sender_frame oracle c st s (h c (List.mem_cons_self c cs))
    have h2 := ih (execCall oracle c st) (fun c' hc' => h c' (List.mem_cons_of_mem c hc'))
    simp only [runCalls]
    exact h2.trans h1

theorem runCalls_operation_frame (oracle : Oracle) (cs : List Call) (o : Nat) :
    ∀ st : PMState, (∀ c ∈ cs, touchesOperation c o = false) →
      isOperationAllowed (runCalls oracle cs st) o = isOperationAllowed st o := by
  induction cs with
  | nil => intro st _; rfl
  | cons c cs ih =>
    intro st h
    have h1 := execCall_operation_frame oracle c st o (h c (List.mem_cons_self c cs))
    have h2 := ih (execCall oracle c st) (fun c' hc' => h c' (List.mem_cons_of_mem c hc'))
    simp only [runCalls]
    exact h2.trans h1


/-- C1: for every user operation with sender S, operation selector O (the
leading 4-byte identifier of the callData) and declared maximum cost,
validate approves - returning a context and the approved validationData
0 - if and only if the sender is allowlisted, the selector is allowlisted
and the maximum cost is at most the balance; in every other case it
denies with an error. -/
theorem claim1_validate_conjunction (uo : UserOperation) (maxCost : Nat) (st : PMState) :
    ((∃ ctx st', validatePaymasterUserOp uo maxCost st = .ok ((ctx, 0), st')) ↔
      (isSenderAllowed st uo.sender = true ∧
        isOperationAllowed st (selectorOf uo.callData) = true ∧ maxCost ≤ st.balance)) ∧
    ((∃ e, validatePaymasterUserOp uo maxCost st = .error e) ↔
      ¬ (isSenderAllowed st uo.sender = true ∧
        isOperationAllowed st (selectorOf uo.callData) = true ∧ maxCost ≤ st.balance)) := by
  constructor
  · constructor
    · rintro ⟨ctx, st', h⟩
      obtain ⟨h1, h2, h3, -, -⟩ := validate_ok_iff.mp h
      exact ⟨h1, h2, h3⟩
    · rintro ⟨h1, h2, h3⟩
      exact ⟨_, _, validate_ok_iff.mpr ⟨h1, h2, h3, rfl, rfl⟩⟩
  · cases hv : validatePaymasterUserOp uo maxCost st with
    | error e =>
      constructor
      · rintro - ⟨h1, h2, h3⟩
        have hok := validate_ok_iff.mpr ⟨h1, h2, h3, rfl, rfl⟩
        rw [hv] at hok
        exact absurd hok (by simp)
      · intro hnc
        exact ⟨e, rfl⟩
    | ok p =>
      obtain ⟨r, st'⟩ := p
      obtain ⟨h1, h2, h3, -, -⟩ := validate_ok_iff.mp hv
      constructor
      · rintro ⟨e, he⟩
        exact absurd he (by simp)
      · intro hnc
        exact absurd ⟨h1, h2, h3⟩ hnc

/-- C1 witness: in the sample state, sender 1 calling operation 7 with a
maximum cost of 80 against a balance of 200 is approved. -/
theorem claim1_validate_conjunction_witness :
    ∃ ctx st', validatePaymasterUserOp sampleOp 80 sampleState = .ok ((ctx, 0), st') :=
  ((claim1_validate_conjunction sampleOp 80 sampleState).1).mpr (by decide)


/-- C2 counterexample: from the sample state (balance 200, sender 1 and
operation 7 allowlisted) validate approves yielding the context
[1, 7, 80]; a first settle of cost 80 succeeds leaving balance 120, and a
second settle reusing the very same context succeeds again, deducting a
further 80 instead of failing with InvalidContext and leaving the balance
unchanged as the claim requires - the system records no consumed
contexts. -/
theorem claim2_context_reuse_counterexample :
    validatePaymasterUserOp sampleOp 80 sampleState = .ok (([1, 7, 80], 0), sampleState) ∧
    postOp .opSucceeded [1, 7, 80] 80 sampleState =
      .ok ([.UserOperationSponsored 1 7 80], { sampleState with balance := 120 }) ∧
    postOp .opSucceeded [1, 7, 80] 80 { sampleState with balance := 120 } =
      .ok ([.UserOperationSponsored 1 7 80], { sampleState with balance := 40 }) ∧
    ({ sampleState with balance := 40 } : PMState).balance ≠
      ({ sampleState with balance := 120 } : PMState).balance :=
  ⟨rfl, rfl, rfl, by decide⟩

/-- C2 (amended): settle fails with InvalidContext exactly when the
context blob does not decode; a successfully settled context is not
consumed - settling it a second time succeeds again, deducting the cost
again, whenever the remaining balance covers it.  Enforcing single use of
a context is delegated to the settlement authority, as sections 3 and 9
of the spec state. -/
theorem claim2_settle_no_replay_protection (mode : PostOpMode) (ctx : List Nat)
    (g : Nat) (st : PMState) :
    (postOp mode ctx g st = .error .InvalidContext ↔ decodeCtx ctx = none) ∧
    (∀ ev st', postOp mode ctx g st = .ok (ev, st') → g ≤ st'.balance →
      postOp mode ctx g st' = .ok (ev, { st' with balance := st'.balance - g })) := by
  constructor
  · cases hd : decodeCtx ctx with
    | none => simp [postOp, hd]
    | some c =>
      simp only [postOp, hd]
      constructor
      · intro h
        by_cases hle : g ≤ st.balance
        · rw [if_pos hle] at h
          exact absurd h (by simp)
        · rw [if_neg hle] at h
          exact absurd h (by simp)
      · intro h
        exact absurd h (by simp)
  · intro ev st' h hle'
    obtain ⟨c, hd, hle, hev, rfl⟩ := postOp_ok_iff.mp h
    exact postOp_ok_iff.mpr ⟨c, hd, by simpa using hle', hev, rfl⟩

/-- C2 witness: reusing the context [1, 7, 80] against the balance-120
state settles again to balance 40. -/
theorem claim2_settle_no_replay_protection_witness :
    postOp .opSucceeded [1, 7, 80] 80 { sampleState with balance := 120 } =
      .ok ([.UserOperationSponsored 1 7 80], { sampleState with balance := 40 }) :=
  (claim2_settle_no_replay_protection .opSucceeded [1, 7, 80] 80 sampleState).2
    [.UserOperationSponsored 1 7 80] { sampleState with balance := 120 } rfl (by decide)


/-- C3: over any interleaved sequence of calls starting from a state with
an empty ledger, the final balance plus all successfully settled gas
costs plus all successfully withdrawn amounts equals the sum of all
deposited amounts (the Nat-valued equation also certifies that the
balance never went negative and was never truncated); moreover, in every
state, a withdrawal of more than the balance and a settlement of more
than the balance each fail and leave the state unchanged. -/
theorem claim3_ledger_conservation (oracle : Oracle) (cs : List Call) (st : PMState)
    (h0 : st.balance = 0) :
    ((runAcc oracle cs st).1).balance + (runAcc oracle cs st).2.2.1 +
        (runAcc oracle cs st).2.2.2 = (runAcc oracle cs st).2.1 ∧
    (∀ (st₂ : PMState) (caller dest a : Nat), st₂.balance < a →
      (∃ e, withdrawTo oracle caller dest a st₂ = .error e) ∧
      stepStateP st₂ (withdrawTo oracle caller dest a st₂) = st₂) ∧
    (∀ (st₂ : PMState) (mode : PostOpMode) (ctx : List Nat) (g : Nat), st₂.balance < g →
      (∃ e, postOp mode ctx g st₂ = .error e) ∧
      stepState st₂ (postOp mode ctx g st₂) = st₂) := by
  refine ⟨?_, ?_, ?_⟩
  · have h := runAcc_balance oracle cs st
    omega
  · intro st₂ caller dest a hlt
    cases hw : withdrawTo oracle caller dest a st₂ with
    | error e => exact ⟨⟨e, rfl⟩, rfl⟩
    | ok st' =>
      obtain ⟨-, hle, -⟩ := withdrawTo_ok_iff.mp hw
      omega
  · intro st₂ mode ctx g hlt
    cases hw : postOp mode ctx g st₂ with
    | error e => exact ⟨⟨e, rfl⟩, rfl⟩
    | ok p =>
      obtain ⟨ev, st'⟩ := p
      obtain ⟨c, -, hle, -, -⟩ := postOp_ok_iff.mp hw
      omega

/-- C3 witness: on the demo trace (deposit 100, settle 80, withdraw 10)
from the empty initial state, balance 10 plus settled 80 plus withdrawn
10 equals deposited 100. -/
theorem claim3_ledger_conservation_witness :
    ((runAcc allowAll demoCalls (initState 7 9)).1).balance +
        (runAcc allowAll demoCalls (initState 7 9)).2.2.1 +
        (runAcc allowAll demoCalls (initState 7 9)).2.2.2
      = (runAcc allowAll demoCalls (initState 7 9)).2.1 :=
  (claim3_ledger_conservation allowAll demoCalls (initState 7 9) rfl).1

/-- C4: for every decodable context and both executed settlement modes,
settle deducts exactly actualGasCost from the balance and emits
UserOperationSponsored with the sender, selector and cost; the result is
independent of the mode; and when the cost exceeds the balance it fails
with InsufficientFunds, leaving the state unchanged. -/
theorem claim4_settle_deduction (mode mode' : PostOpMode) (c : Context) (g : Nat)
    (st : PMState) :
    (g ≤ st.balance →
      postOp mode (encodeCtx c) g st =
        .ok ([.UserOperationSponsored c.sender c.selector g],
          { st with balance := st.balance - g })) ∧
    (st.balance < g →
      postOp mode (encodeCtx c) g st = .error .InsufficientFunds ∧
      stepState st (postOp mode (encodeCtx c) g st) = st) ∧
    postOp mode (encodeCtx c) g st = postOp mode' (encodeCtx c) g st := by
  have hd : decodeCtx (encodeCtx c) = some c := rfl
  refine ⟨?_, ?_, rfl⟩
  · intro hle
    exact postOp_ok_iff.mpr ⟨c, hd, hle, rfl, rfl⟩
  · intro hlt
    have he : postOp mode (encodeCtx c) g st = .error .InsufficientFunds := by
      simp only [postOp, hd]
      rw [if_neg (by omega)]
    exact ⟨he, by rw [he]; rfl⟩

/-- C4 witness: settling cost 80 against the sample state (balance 200)
deducts exactly 80 and emits the sponsorship event; settling cost 300
fails with InsufficientFunds. -/
theorem claim4_settle_deduction_witness :
    (postOp .opSucceeded (encodeCtx ⟨1, 7, 80⟩) 80 sampleState =
      .ok ([.UserOperationSponsored 1 7 80],
        { sampleState with balance := sampleState.balance - 80 })) ∧
    postOp .opReverted (encodeCtx ⟨1, 7, 80⟩) 300 sampleState = .error .InsufficientFunds :=
  ⟨(claim4_settle_deduction .opSucceeded .opReverted ⟨1, 7, 80⟩ 80 sampleState).1 (by decide),
   ((claim4_settle_deduction .opReverted .opSucceeded ⟨1, 7, 80⟩ 300 sampleState).2.1
      (by decide)).1⟩


/-- C5: validate is read-only - whether it approves or denies, the state
after the call (under revert semantics) equals the state before it, so no
component of the persisted state (allowlists, balance, stake record) is
mutated, and the model keeps no consumed-context record at all. -/
theorem claim5_validate_readonly (uo : UserOperation) (maxCost : Nat) (st : PMState) :
    stepState st (validatePaymasterUserOp uo maxCost st) = st := by
  cases hv : validatePaymasterUserOp uo maxCost st with
  | error e => rfl
  | ok p =>
    obtain ⟨r, st'⟩ := p
    obtain ⟨-, -, -, -, rfl⟩ := validate_ok_iff.mp hv
    rfl

/-- C6: a batch status update called by an unauthorized principal fails
with Unauthorized, and every entry of the corresponding allowlist reads
exactly as before the call - no prefix of the batch is applied; stated
for the sender batch and symmetrically for the operation batch. -/
theorem claim6_batch_atomicity (oracle : Oracle) (caller : Nat)
    (senders operations : List Nat) (b : Bool) (st : PMState) :
    (oracle caller .setBatchSenderStatusAct = false →
      setBatchSenderStatus oracle caller senders b st = .error .Unauthorized ∧
      ∀ s, isSenderAllowed (stepState st (setBatchSenderStatus oracle caller senders b st)) s
        = isSenderAllowed st s) ∧
    (oracle caller .setBatchOperationStatusAct = false →
      setBatchOperationStatus oracle caller operations b st = .error .Unauthorized ∧
      ∀ o, isOperationAllowed
          (stepState st (setBatchOperationStatus oracle caller operations b st)) o
        = isOperationAllowed st o) := by
  constructor
  · intro h
    have he : setBatchSenderStatus oracle caller senders b st = .error .Unauthorized := by
      simp [setBatchSenderStatus, h]
    exact ⟨he, fun s => by rw [he]; rfl⟩
  · intro h
    have he : setBatchOperationStatus oracle caller operations b st = .error .Unauthorized := by
      simp [setBatchOperationStatus, h]
    exact ⟨he, fun o => by rw [he]; rfl⟩

/-- C6 witness: the deny-all oracle rejects a two-sender batch against
the sample state and every sender allowlist entry reads as before. -/
theorem claim6_batch_atomicity_witness :
    setBatchSenderStatus denyAll 0 [1, 2] true sampleState = .error .Unauthorized ∧
    ∀ s, isSenderAllowed (stepState sampleState
        (setBatchSenderStatus denyAll 0 [1, 2] true sampleState)) s
      = isSenderAllowed sampleState s :=
  (claim6_batch_atomicity denyAll 0 [1, 2] [3] true sampleState).1 rfl

/-- C7: starting from the construction-time state, after any sequence of
calls none of which writes the allowlist entry of sender s or of
operation selector o, the lookups of s and o are still false - absence of
a key is equivalent to allowed = false. -/
theorem claim7_default_deny (oracle : Oracle) (cs : List Call) (ep ac s o : Nat)
    (hs : ∀ c ∈ cs, touchesSender c s = false)
    (ho : ∀ c ∈ cs, touchesOperation c o = false) :
    isSenderAllowed (runCalls oracle cs (initState ep ac)) s = false ∧
    isOperationAllowed (runCalls oracle cs (initState ep ac)) o = false := by
  constructor
  · rw [runCalls_sender_frame oracle cs s (initState ep ac) hs]
    rfl
  · rw [runCalls_operation_frame oracle cs o (initState ep ac) ho]
    rfl

/-- C7 witness: after setting sender 2 and operation 3, the never-set
sender 5 and operation 5 still read false. -/
theorem claim7_default_deny_witness :
    isSenderAllowed (runCalls allowAll
      [Call.setSenderStatusC 0 2 true, Call.setOperationStatusC 0 3 true]
      (initState 7 9)) 5 = false ∧
    isOperationAllowed (runCalls allowAll
      [Call.setSenderStatusC 0 2 true, Call.setOperationStatusC 0 3 true]
      (initState 7 9)) 5 = false :=
  claim7_default_deny allowAll
    [Call.setSenderStatusC 0 2 true, Call.setOperationStatusC 0 3 true]
    7 9 5 5 (by decide) (by decide)


/-- C8: for an authorized caller, withdrawStake fails with
StakeTimelockNotElapsed while the unlock timer was never started or has
not yet elapsed; once it has elapsed and stake is present it succeeds,
transferring the full stake and zeroing it, after which every further
withdrawStake call - by any caller, at any time - fails. -/
theorem claim8_stake_timelock (oracle : Oracle) (caller dest now t : Nat) (st : PMState)
    (hauth : oracle caller .withdrawStakeAct = true) :
    (st.stake.unlockTime = none →
      withdrawStake oracle caller dest now st = .error .StakeTimelockNotElapsed) ∧
    (st.stake.unlockTime = some t → now < t →
      withdrawStake oracle caller dest now st = .error .StakeTimelockNotElapsed) ∧
    (st.stake.unlockTime = some t → t ≤ now → st.stake.amount ≠ 0 →
      withdrawStake oracle caller dest now st =
        .ok (st.stake.amount,
          { st with stake := ⟨0, st.stake.unlockDelay, st.stake.unlockTime⟩ }) ∧
      ∀ (oracle' : Oracle) (caller' dest' now' : Nat), ∃ e,
        withdrawStake oracle' caller' dest' now'
          { st with stake := ⟨0, st.stake.unlockDelay, st.stake.unlockTime⟩ } = .error e) := by
  refine ⟨?_, ?_, ?_⟩
  · intro hn
    simp [withdrawStake, hauth, hn]
  · intro hsome hlt
    simp [withdrawStake, hauth, hsome, hlt]
  · intro hsome hle hne
    refine ⟨withdrawStake_ok_iff.mpr ⟨hauth, ⟨t, hsome, hle⟩, hne, rfl, rfl⟩, ?_⟩
    intro oracle' caller' dest' now'
    by_cases ha : oracle' caller' AdminAct.withdrawStakeAct = true
    · rcases Nat.lt_or_ge now' t with hlt' | hge'
      · exact ⟨.StakeTimelockNotElapsed, by simp [withdrawStake, ha, hsome, hlt']⟩
      · exact ⟨.NoStakeToWithdraw,
          by simp [withdrawStake, ha, hsome, Nat.not_lt_of_ge hge']⟩
    · exact ⟨.Unauthorized, by simp [withdrawStake, ha]⟩

/-- C8 witness: with stake 50 unlocked at time 110, withdrawing at time
120 transfers the full 50 and zeroes the stake; any further withdrawal
fails. -/
theorem claim8_stake_timelock_witness :
    withdrawStake allowAll 0 4 120 sampleStakeState =
      .ok (50, { sampleStakeState with stake := ⟨0, 10, some 110⟩ }) ∧
    ∀ (oracle' : Oracle) (caller' dest' now' : Nat), ∃ e,
      withdrawStake oracle' caller' dest' now'
        { sampleStakeState with stake := ⟨0, 10, some 110⟩ } = .error e := by
  have h := (claim8_stake_timelock allowAll 0 4 120 110 sampleStakeState rfl).2.2
    rfl (by decide) (by decide)
  exact ⟨h.1, h.2⟩

/-- C9: requesting a stake delay strictly below the currently configured
delay makes addStake fail without mutating any state, and every
successful addStake call leaves the configured delay no smaller than
before - the delay is non-decreasing across successful calls. -/
theorem claim9_stake_delay_monotonic (oracle : Oracle) (caller value d : Nat)
    (st : PMState) :
    (d < st.stake.unlockDelay →
      (∃ e, addStake oracle caller value d st = .error e) ∧
      stepStateP st (addStake oracle caller value d st) = st) ∧
    (∀ st', addStake oracle caller value d st = .ok st' →
      st.stake.unlockDelay ≤ st'.stake.unlockDelay) := by
  constructor
  · intro hlt
    cases ha : addStake oracle caller value d st with
    | error e => exact ⟨⟨e, rfl⟩, rfl⟩
    | ok st' =>
      obtain ⟨-, hle, -⟩ := addStake_ok_iff.mp ha
      omega
  · intro st' ha
    obtain ⟨-, hle, rfl⟩ := addStake_ok_iff.mp ha
    simpa using hle

/-- C9 witness: with configured delay 10, requesting delay 5 fails and
mutates nothing, while a successful call with delay 20 raises the
configured delay to 20. -/
theorem claim9_stake_delay_monotonic_witness :
    ((∃ e, addStake allowAll 0 5 5 sampleStakeState = .error e) ∧
      stepStateP sampleStakeState (addStake allowAll 0 5 5 sampleStakeState)
        = sampleStakeState) ∧
    sampleStakeState.stake.unlockDelay ≤
      ({ sampleStakeState with stake := ⟨55, 20, some 110⟩ } : PMState).stake.unlockDelay :=
  ⟨(claim9_stake_delay_monotonic allowAll 0 5 5 sampleStakeState).1 (by decide),
   (claim9_stake_delay_monotonic allowAll 0 5 20 sampleStakeState).2
     { sampleStakeState with stake := ⟨55, 20, some 110⟩ } rfl⟩

/-- C10: the entryPoint and accessControl references fixed by the
constructor are preserved by every sequence of calls of the full call
surface - in every reachable state they equal their construction-time
values (the call surface, mirroring the ABI, has no setter for them). -/
theorem claim10_references_immutable (oracle : Oracle) (cs : List Call) (ep ac : Nat) :
    (runCalls oracle cs (initState ep ac)).entryPoint = ep ∧
    (runCalls oracle cs (initState ep ac)).accessControl = ac := by
  have h := runCalls_refs oracle cs (initState ep ac)
  exact ⟨h.1, h.2⟩

end GreenLedger
